import Mathlib

/-
Verification of the gguf structural decoder (package gguf).

The development shallowly embeds the Go source:
  * `selectChildren`, `ggufKeys` (source: selectChildren, keys)
  * the three walker shapes and their methods
    (walkerStruct.Field, walkerSlice.Len/Index,
     walkerData.ToDataSlice/ToDataStruct/ValueFuture)
  * leaf materialization (arrayFuture.Value), with the reader gate
    (tensorInfo.Reader / reader.Close) threaded explicitly
  * the reader gate as a labelled transition system over gate states.

Modelling conventions:
  * Machine integers are modelled as Nat (dimensions are uint64, byte sizes
    int64 and non-negative); quantities are assumed within the exact range
    of Go int arithmetic (below 2^63), where no wrap-around occurs.
  * A 32-bit float is represented by its 4-byte group taken from the byte
    buffer, which models the in-memory reinterpretation performed by
    unsafe.Slice exactly, without committing to IEEE-754 semantics.
  * A tensor's reader is modelled by `stream : Option (List Nat)`:
    `none` models Reader() returning an error, `some bs` a reader that
    yields the bytes `bs` then EOF.  io.CopyN(buf, r, size) returns a nil
    error exactly when `size` bytes were copied, so the subsequent
    `n != size` branch of arrayFuture.Value is unreachable and the EOF
    case is modelled by the `shortRead` error.
  * Go map iteration order (used by keys and maps.Keys) is unspecified;
    the model fixes first-occurrence order and theorems only rely on
    membership and distinctness.
  * The keyValue.parent back pointer and fullPath are used only for
    messages not examined here and are not modelled; keyValue.name is kept.
-/

/-- Errors produced by the decoder; each constructor corresponds to one
error return in the Go source, carrying the data of its message. -/
inductive GGUFError where
  /-- tensorInfo.Reader: the underlying gguf reader failed to open. -/
  | openFailed : GGUFError
  /-- arrayFuture.Value: io.CopyN hit EOF after `got` of `want` bytes. -/
  | shortRead (got want : Nat) : GGUFError
  /-- arrayFuture.Value: mismatch between the axes and the buffer size. -/
  | sizeMismatch (axes : List Nat) (count size width : Nat) : GGUFError
  /-- arrayFuture.Value: run-time panic indexing byte 0 of an empty buffer. -/
  | panicIndexOutOfRange : GGUFError
  /-- walkerData.ValueFuture: empty leaf. -/
  | emptyLeaf : GGUFError
  /-- walkerData.ValueFuture: not a leaf (more than one entry). -/
  | notALeaf : GGUFError
  /-- walkerStruct.Field: no field with this name; carries the keys list. -/
  | noField (name : String) (available : List String) : GGUFError
  /-- walkerData.ToDataSlice: element in slice has no value. -/
  | sliceNoValue : GGUFError
  /-- walkerData.ToDataSlice: strconv.Atoi failed on this segment. -/
  | sliceBadKey (key : String) : GGUFError
  /-- walkerSlice.Index: no element at this index. -/
  | noIndex (i : Int) : GGUFError
deriving DecidableEq, Repr

/-- Model of one tensor record (interface TensorInfo): its name, declared
byte size, dimension list (minor-to-major, as stored by GGUF), and the
byte stream its reader yields (`none` models a Reader() error). -/
structure TensorModel where
  name : String
  size : Nat
  dims : List Nat
  stream : Option (List Nat)
deriving DecidableEq, Repr

/-- Model of keyValue: the remaining path segments and the tensor record. -/
structure KeyValue where
  name : String
  path : List String
  info : TensorModel
deriving DecidableEq, Repr

/-- keyValue.child: consume one segment (path becomes path[1:]). -/
def KeyValue.child (kv : KeyValue) (name : String) : KeyValue :=
  { name := name, path := kv.path.tail, info := kv.info }

/-- walkerStruct: a view consulted through field lookup. -/
structure WalkerStruct where
  set : List KeyValue
deriving DecidableEq, Repr

/-- walkerSlice: a view consulted through index lookup.  The Go map
`map[int][]keyValue` is modelled as an association list whose keys are
kept distinct by construction, in first-insertion order. -/
structure WalkerSlice where
  set : List (Int × List KeyValue)
deriving DecidableEq, Repr

/-- walkerData: an undetermined view over a set of entries. -/
structure WalkerData where
  set : List KeyValue
deriving DecidableEq, Repr

/-- selectChildren: the entries of `set` whose next remaining segment is
`name`, each truncated by one segment; entries with an empty path are
skipped.  The Go loop appends to an accumulator, modelled by foldl. -/
def selectChildren (set : List KeyValue) (name : String) : List KeyValue :=
  set.foldl
    (fun children kv =>
      match kv.path with
      | [] => children
      | first :: _ =>
        if first = name then children ++ [kv.child name] else children)
    []

/-- First-segment value of an entry as reported by keys: the next
remaining segment, or the empty string when no segment remains. -/
def firstKey (kv : KeyValue) : String :=
  match kv.path with
  | [] => ""
  | first :: _ => first

/-- keys: the distinct first-segment values of the set.  The Go code
collects them into a map and returns its keys in unspecified order; the
model returns them in first-occurrence order. -/
def ggufKeys (set : List KeyValue) : List String :=
  set.foldl
    (fun ks kv => if firstKey kv ∈ ks then ks else ks ++ [firstKey kv])
    []

/-- walkerStruct.Field: group the children for `name`; error listing the
available keys when no entry matches. -/
def WalkerStruct.Field (w : WalkerStruct) (name : String) :
    Except GGUFError WalkerData :=
  let child := selectChildren w.set name
  if child.isEmpty then .error (.noField name (ggufKeys w.set))
  else .ok { set := child }

/-- Digit-run accumulator of strconv: consume decimal digits; any other
character is an error. -/
def decDigitsAux : List Char → Nat → Option Nat
  | [], acc => some acc
  | c :: cs, acc =>
    if c.isDigit then decDigitsAux cs (acc * 10 + (c.toNat - 48)) else none

/-- strconv.Atoi on a 64-bit platform: an optional sign followed by at
least one decimal digit, with the value required to fit in int64
(otherwise ErrRange, reported as an error by Atoi). -/
def goAtoi (s : String) : Option Int :=
  match s.data with
  | [] => none
  | c :: rest =>
    let neg := c = '-'
    let digits := if c = '-' ∨ c = '+' then rest else c :: rest
    if digits.isEmpty then none
    else
      match decDigitsAux digits 0 with
      | none => none
      | some n =>
        if neg then (if n ≤ 2 ^ 63 then some (-(n : Int)) else none)
        else (if n < 2 ^ 63 then some (n : Int) else none)

/-- Association-list update modelling `sl.set[i] = append(sl.set[i], kv)`:
append to the bucket of key `i`, creating the bucket at the end when the
key is new. -/
def insertKV : List (Int × List KeyValue) → Int → KeyValue →
    List (Int × List KeyValue)
  | [], i, kv => [(i, [kv])]
  | (j, l) :: rest, i, kv =>
    if j = i then (j, l ++ [kv]) :: rest else (j, l) :: insertKV rest i kv

/-- Map lookup on the association list. -/
def sliceFind : List (Int × List KeyValue) → Int → Option (List KeyValue)
  | [], _ => none
  | (j, l) :: rest, i => if j = i then some l else sliceFind rest i

/-- Keys of the association list, in insertion order. -/
def sliceKeys (m : List (Int × List KeyValue)) : List Int :=
  m.map Prod.fst

/-- Loop body of walkerData.ToDataSlice: fold the entries into the map,
stopping at the first entry with no segments or a non-numeric segment. -/
def toDataSliceAux : List (Int × List KeyValue) → List KeyValue →
    Except GGUFError (List (Int × List KeyValue))
  | m, [] => .ok m
  | m, kv :: rest =>
    match kv.path with
    | [] => .error .sliceNoValue
    | first :: _ =>
      match goAtoi first with
      | none => .error (.sliceBadKey first)
      | some i => toDataSliceAux (insertKV m i (kv.child first)) rest

/-- walkerData.ToDataSlice: build the index-to-entries map. -/
def WalkerData.ToDataSlice (w : WalkerData) : Except GGUFError WalkerSlice :=
  (toDataSliceAux [] w.set).map (fun m => { set := m })

/-- walkerData.ToDataStruct: reinterpret the same set as a struct view. -/
def WalkerData.ToDataStruct (w : WalkerData) : Except GGUFError WalkerStruct :=
  .ok { set := w.set }

/-- walkerSlice.Len: the size of the map. -/
def WalkerSlice.Len (w : WalkerSlice) : Nat :=
  w.set.length

/-- walkerSlice.Index: the sub-view at index `i`, or an error. -/
def WalkerSlice.Index (w : WalkerSlice) (i : Int) :
    Except GGUFError WalkerData :=
  match sliceFind w.set i with
  | some children => .ok { set := children }
  | none => .error (.noIndex i)

/-- arrayFuture: the pending materialization of one entry. -/
structure ArrayFuture where
  kv : KeyValue
deriving DecidableEq, Repr

/-- walkerData.ValueFuture: exactly one entry is required; the entry's
remaining segments are not examined. -/
def WalkerData.ValueFuture (w : WalkerData) : Except GGUFError ArrayFuture :=
  match w.set with
  | [] => .error .emptyLeaf
  | [kv] => .ok { kv := kv }
  | _ :: _ :: _ => .error .notALeaf

/-- Result of types.ArrayFloat32(flat, axes...): the axis list and the
flat elements, each element being the 4-byte group of one float32. -/
structure ArrayF32 where
  axes : List Nat
  elems : List (List Nat)
deriving DecidableEq, Repr

/-- The axes/length loop of arrayFuture.Value: `axes[len-1-i] = dims[i]`
builds the reversed dimension list while `length *= dims[i]` accumulates
the element count. -/
def revAxesLen (dims : List Nat) : List Nat × Nat :=
  dims.foldl (fun acc dim => (dim :: acc.1, acc.2 * dim)) ([], 1)

/-- unsafe.Slice((*float32)(&buf[0]), n): the first `n` 4-byte groups of
the buffer, in buffer order. -/
def takeF32 : Nat → List Nat → List (List Nat)
  | 0, _ => []
  | n + 1, bs => bs.take 4 :: takeF32 n (bs.drop 4)

/-- State of the reader gate (decoder.locker plus the set of live reader
handles): whether the mutex is held and which handles are open. -/
structure GateState where
  locked : Bool
  openIds : List Nat
deriving DecidableEq, Repr

/-- arrayFuture.Value with the reader gate threaded through, identified
by a fresh handle id for the reader it opens.  Exit paths:
  * Reader() fails: the mutex was taken and released inside Reader.
  * every later path, error or success, runs the deferred r.Close(),
    which unlocks the mutex and retires the handle.
The size check uses Go integer (truncating) division; after it passes,
`&buf.Bytes()[0]` panics when the buffer is empty (size zero). -/
def tensorValue (tensor : TensorModel) (id : Nat) (g : GateState) :
    Except GGUFError ArrayF32 × GateState :=
  match tensor.stream with
  | none => (.error .openFailed, { locked := false, openIds := g.openIds })
  | some stream =>
    let held : GateState := { locked := true, openIds := id :: g.openIds }
    let closed : GateState :=
      { locked := false, openIds := held.openIds.erase id }
    if stream.length < tensor.size then
      (.error (.shortRead stream.length tensor.size), closed)
    else
      let buf := stream.take tensor.size
      let axes := (revAxesLen tensor.dims).1
      let count := (revAxesLen tensor.dims).2
      if count ≠ tensor.size / 4 then
        (.error (.sizeMismatch axes count tensor.size 4), closed)
      else if tensor.size = 0 then
        (.error .panicIndexOutOfRange, closed)
      else
        (.ok { axes := axes, elems := takeF32 count buf }, closed)

/-- arrayFuture.Value: materialize the future's record. -/
def ArrayFuture.Value (pr : ArrayFuture) (id : Nat) (g : GateState) :
    Except GGUFError ArrayF32 × GateState :=
  tensorValue pr.kv.info id g

/-- Observable gate events: a successful open (tensorInfo.Reader
returning a handle), a failed open (Reader locking, failing, unlocking),
and a close (reader.Close). -/
inductive GateEvent where
  | acquireOk (id : Nat) : GateEvent
  | acquireFail : GateEvent
  | close (id : Nat) : GateEvent
deriving DecidableEq, Repr

/-- One step of the reader gate.  Lock() only proceeds when the mutex is
free, so both open events require an unlocked state; Close() unlocks and
retires the handle. -/
inductive gateStep : GateState → GateEvent → GateState → Prop where
  | acquireOk (id : Nat) (l : List Nat) :
      gateStep { locked := false, openIds := l } (.acquireOk id)
        { locked := true, openIds := id :: l }
  | acquireFail (l : List Nat) :
      gateStep { locked := false, openIds := l } .acquireFail
        { locked := false, openIds := l }
  | close (id : Nat) (b : Bool) (l : List Nat) (h : id ∈ l) :
      gateStep { locked := b, openIds := l } (.close id)
        { locked := false, openIds := l.erase id }

/-- Gate states reachable from the initial (unlocked, no handle) state by
a trace of events. -/
inductive gateReach : List GateEvent → GateState → Prop where
  | init : gateReach [] { locked := false, openIds := [] }
  | step {tr : List GateEvent} {s : GateState} {e : GateEvent}
      {t : GateState} :
      gateReach tr s → gateStep s e t → gateReach (tr ++ [e]) t

/-- The gate events emitted by one run of arrayFuture.Value. -/
def valueGateEvents (tensor : TensorModel) (id : Nat) : List GateEvent :=
  match tensor.stream with
  | none => [.acquireFail]
  | some _ => [.acquireOk id, .close id]

/-- Whether an event is a successful open. -/
def isAcquireOk : GateEvent → Bool
  | .acquireOk _ => true
  | _ => false

/-- Whether an event is a close. -/
def isCloseEvent : GateEvent → Bool
  | .close _ => true
  | _ => false

/-- The entries of the set whose next segment parses to index `i`, each
truncated by one segment (the declarative counterpart of the map bucket
built by ToDataSlice). -/
def childrenAt (i : Int) (set : List KeyValue) : List KeyValue :=
  set.filterMap (fun kv =>
    match kv.path with
    | [] => none
    | first :: _ =>
      match goAtoi first with
      | none => none
      | some j => if j = i then some (kv.child first) else none)

/-- A non-negative base-10 integer literal in the sense of the design
document: one or more decimal digits and nothing else. -/
def isNonNegIntString (s : String) : Bool :=
  !s.data.isEmpty && s.data.all Char.isDigit

/-- The initial gate state. -/
def gateInit : GateState :=
  { locked := false, openIds := [] }

/-- Decidable equality of results, for evaluating the model on concrete
inputs. -/
instance {ε α : Type} [DecidableEq ε] [DecidableEq α] :
    DecidableEq (Except ε α) := fun x y =>
  match x, y with
  | .ok a, .ok b =>
    if h : a = b then .isTrue (by rw [h]) else .isFalse (by simp [h])
  | .ok _, .error _ => .isFalse (by simp)
  | .error _, .ok _ => .isFalse (by simp)
  | .error e, .error f =>
    if h : e = f then .isTrue (by rw [h]) else .isFalse (by simp [h])

/-- Concrete tensor used by several concrete instances below. -/
def tDummy : TensorModel :=
  { name := "t", size := 0, dims := [], stream := none }

/-- Concrete record: dimensions [3,2] and a 24-byte buffer 0..23. -/
def tensor24 : TensorModel :=
  { name := "w", size := 24, dims := [3, 2], stream := some (List.range 24) }

/-- The array produced for tensor24: axes reversed, six 4-byte floats. -/
def array24 : ArrayF32 :=
  { axes := [2, 3],
    elems := [[0, 1, 2, 3], [4, 5, 6, 7], [8, 9, 10, 11], [12, 13, 14, 15],
      [16, 17, 18, 19], [20, 21, 22, 23]] }

/-- Concrete record: dimensions [3,2] but a 25-byte buffer. -/
def tensor25 : TensorModel :=
  { name := "t", size := 25, dims := [3, 2],
    stream := some (List.replicate 25 0) }

/-- Concrete record: dimensions [3,2] but a 20-byte buffer. -/
def tensor20 : TensorModel :=
  { name := "t", size := 20, dims := [3, 2],
    stream := some (List.replicate 20 0) }

/-- Entry with one remaining segment. -/
def kvX : KeyValue := { name := "", path := ["x"], info := tDummy }

/-- Entry with no remaining segments. -/
def kvY : KeyValue := { name := "", path := [], info := tDummy }

/-- Entry whose next segment is the negative literal -1. -/
def kvNeg : KeyValue := { name := "", path := ["-1"], info := tDummy }

/-- Two entries with numeric next segments. -/
def w4 : WalkerData :=
  { set := [ { name := "", path := ["0", "a"], info := tDummy },
    { name := "", path := ["1", "b"], info := tDummy } ] }

/-- Three entries under indices 0, 0 and 1. -/
def w7 : WalkerData :=
  { set := [ { name := "", path := ["0", "a"], info := tDummy },
    { name := "", path := ["1", "a"], info := tDummy },
    { name := "", path := ["0", "b"], info := tDummy } ] }

/-- The sequence view built from w7: two distinct indices. -/
def sl7 : WalkerSlice :=
  { set := [
    (0, [ { name := "0", path := ["a"], info := tDummy },
      { name := "0", path := ["b"], info := tDummy } ]),
    (1, [ { name := "1", path := ["a"], info := tDummy } ]) ] }

/-- Entry with an empty remaining path (a leaf candidate). -/
def kvNil : KeyValue := { name := "", path := [], info := tDummy }

/-- Entries with first segments a and c. -/
def kvAB : KeyValue := { name := "", path := ["a", "b"], info := tDummy }

/-- Entry with the single segment c. -/
def kvC : KeyValue := { name := "", path := ["c"], info := tDummy }

theorem revAxesLen_foldl (dims : List Nat) :
    ∀ (a : List Nat) (n : Nat),
      dims.foldl (fun acc dim => (dim :: acc.1, acc.2 * dim)) (a, n) =
        (dims.reverse ++ a, n * dims.prod) := by
  induction dims with
  | nil => intro a n; simp
  | cons d ds ih =>
    intro a n
    simp only [List.foldl_cons]
    rw [ih (d :: a) (n * d)]
    simp [List.reverse_cons, List.append_assoc, mul_assoc]

theorem revAxesLen_fst (dims : List Nat) : (revAxesLen dims).1 = dims.reverse := by
  simp [revAxesLen, revAxesLen_foldl]

theorem revAxesLen_snd (dims : List Nat) : (revAxesLen dims).2 = dims.prod := by
  simp [revAxesLen, revAxesLen_foldl]

theorem takeF32_length (n : Nat) : ∀ bs : List Nat, (takeF32 n bs).length = n := by
  induction n with
  | zero => intro bs; simp [takeF32]
  | succ k ih => intro bs; simp [takeF32, ih]

theorem takeF32_getElem (n : Nat) :
    ∀ (bs : List Nat) (i : Nat), i < n →
      (takeF32 n bs)[i]? = some ((bs.drop (4 * i)).take 4) := by
  induction n with
  | zero => intro bs i h; omega
  | succ k ih =>
    intro bs i h
    cases i with
    | zero => simp [takeF32]
    | succ j =>
      have hj : j < k := by omega
      have h4 : 4 + 4 * j = 4 * (j + 1) := by ring
      simp [takeF32, ih (bs.drop 4) j hj, List.drop_drop, h4]

/-- C1: successful materialization reverses the dimension order into the
axis list, has the product of the dimensions as element count, and its
elements are consecutive 4-byte groups of the read buffer in order. -/
theorem tensorValue_ok_shape (t : TensorModel) (id : Nat) (g : GateState)
    (a : ArrayF32) (h : (tensorValue t id g).1 = .ok a) :
    a.axes = t.dims.reverse ∧ a.elems.length = t.dims.prod ∧
      ∀ bs, t.stream = some bs → ∀ i, i < t.dims.prod →
        a.elems[i]? = some (((bs.take t.size).drop (4 * i)).take 4) := by
  cases hs : t.stream with
  | none => simp [tensorValue, hs] at h
  | some bs0 =>
    simp only [tensorValue, hs] at h
    split at h
    · simp at h
    · split at h
      · simp at h
      · split at h
        · simp at h
        · replace h := Except.ok.inj h
          subst h
          refine ⟨revAxesLen_fst t.dims, ?_, ?_⟩
          · simp [takeF32_length, revAxesLen_snd]
          · intro bs hbs i hi
            have hbs2 : bs0 = bs := Option.some.inj hbs
            subst hbs2
            exact takeF32_getElem ((revAxesLen t.dims).2) (bs0.take t.size) i
              (by rw [revAxesLen_snd]; exact hi)

/-- C2 (amended): materialization succeeds only when the product of the
dimensions equals size / 4 under truncating division, and when the read
succeeds but the quotient check fails it reports a SizeMismatch carrying
the reversed axes, the element count, the byte size and the width 4. -/
theorem tensorValue_size_check (t : TensorModel) (id : Nat) (g : GateState) :
    ((tensorValue t id g).1.isOk = true → t.dims.prod = t.size / 4) ∧
    (∀ bs, t.stream = some bs → t.size ≤ bs.length →
      t.dims.prod ≠ t.size / 4 →
      (tensorValue t id g).1 =
        .error (.sizeMismatch t.dims.reverse t.dims.prod t.size 4)) := by
  constructor
  · intro h
    cases hs : t.stream with
    | none => simp [tensorValue, hs, Except.isOk, Except.toBool] at h
    | some bs0 =>
      rw [← revAxesLen_snd t.dims]
      simp only [tensorValue, hs] at h
      split at h
      · simp [Except.isOk, Except.toBool] at h
      · split at h
        · simp [Except.isOk, Except.toBool] at h
        next hc => exact not_not.mp hc
  · intro bs hbs hle hne
    simp only [tensorValue, hbs]
    rw [if_neg (by omega : ¬ bs.length < t.size),
      if_pos (by rw [revAxesLen_snd]; exact hne)]
    simp [revAxesLen_fst, revAxesLen_snd]

/-- C10: converting any view to struct shape never fails and keeps the
same entry set. -/
theorem toDataStruct_total (w : WalkerData) :
    w.ToDataStruct = .ok { set := w.set } := rfl

/-- C3 (amended): ValueFuture fails with the empty-leaf error on an empty
set, with the not-a-leaf error on two or more entries, and succeeds on
any singleton set, producing the future of that entry; the remaining
segments of the entry are not examined. -/
theorem valueFuture_cardinality (w : WalkerData) :
    (w.set = [] → w.ValueFuture = .error .emptyLeaf) ∧
    (∀ kv1 kv2 rest, w.set = kv1 :: kv2 :: rest →
      w.ValueFuture = .error .notALeaf) ∧
    (∀ kv, w.set = [kv] → w.ValueFuture = .ok { kv := kv }) := by
  refine ⟨?_, ?_, ?_⟩
  · intro h; simp [WalkerData.ValueFuture, h]
  · intro kv1 kv2 rest h; simp [WalkerData.ValueFuture, h]
  · intro kv h; simp [WalkerData.ValueFuture, h]

theorem selectChildrenAux_eq (name : String) (set : List KeyValue) :
    ∀ acc : List KeyValue,
      set.foldl
        (fun children kv =>
          match kv.path with
          | [] => children
          | first :: _ =>
            if first = name then children ++ [kv.child name] else children)
        acc =
      acc ++ (set.filter (fun kv => decide (kv.path.head? = some name))).map
        (fun kv => kv.child name) := by
  induction set with
  | nil => intro acc; simp
  | cons kv rest ih =>
    intro acc
    cases hp : kv.path with
    | nil => simp [List.foldl_cons, hp, List.filter_cons, ih]
    | cons f r =>
      by_cases hf : f = name
      · subst hf
        simp [List.foldl_cons, hp, List.filter_cons, ih, List.append_assoc]
      · simp [List.foldl_cons, hp, List.filter_cons, ih, hf]

/-- C5: grouping returns exactly the entries whose next remaining segment
is the target name, each with that segment consumed; an entry with no
remaining segments is never selected (its head? is none). -/
theorem selectChildren_spec (set : List KeyValue) (name : String) :
    selectChildren set name =
      (set.filter (fun kv => decide (kv.path.head? = some name))).map
        (fun kv => kv.child name) := by
  simpa using selectChildrenAux_eq name set []

theorem sliceFind_insertKV (m : List (Int × List KeyValue)) (i : Int)
    (kv : KeyValue) (q : Int) :
    sliceFind (insertKV m i kv) q =
      if q = i then some ((sliceFind m i).getD [] ++ [kv])
      else sliceFind m q := by
  induction m with
  | nil =>
    by_cases h : q = i
    · subst h; simp [insertKV, sliceFind]
    · have h2 : ¬ i = q := fun hh => h hh.symm
      simp [insertKV, sliceFind, h, h2]
  | cons p rest ih =>
    obtain ⟨j, l⟩ := p
    by_cases hji : j = i
    · subst hji
      simp only [insertKV, if_pos rfl]
      by_cases hq : q = j
      · subst hq; simp [sliceFind]
      · have hjq : ¬ j = q := fun hh => hq hh.symm
        simp [sliceFind, hq, hjq]
    · simp only [insertKV, if_neg hji]
      by_cases hjq : j = q
      · subst hjq
        simp [sliceFind, hji, fun hh : j = i => hji hh]
      · have hqj : ¬ j = q := hjq
        simp [sliceFind, hqj, ih, hji]

theorem sliceFind_isSome_iff (m : List (Int × List KeyValue)) (q : Int) :
    (sliceFind m q).isSome = true ↔ q ∈ sliceKeys m := by
  induction m with
  | nil => simp [sliceFind, sliceKeys]
  | cons p rest ih =>
    obtain ⟨j, l⟩ := p
    by_cases h : j = q
    · subst h; simp [sliceFind, sliceKeys]
    · have h2 : ¬ q = j := fun hh => h hh.symm
      simp [sliceFind, sliceKeys, h, h2, ih]

theorem sliceKeys_insertKV_mem (m : List (Int × List KeyValue)) (i : Int)
    (kv : KeyValue) (q : Int) :
    q ∈ sliceKeys (insertKV m i kv) ↔ q = i ∨ q ∈ sliceKeys m := by
  rw [← sliceFind_isSome_iff, sliceFind_insertKV, ← sliceFind_isSome_iff]
  by_cases h : q = i <;> simp [h]

theorem sliceKeys_insertKV_nodup (m : List (Int × List KeyValue)) (i : Int)
    (kv : KeyValue) (h : (sliceKeys m).Nodup) :
    (sliceKeys (insertKV m i kv)).Nodup := by
  induction m with
  | nil => simp [insertKV, sliceKeys]
  | cons p rest ih =>
    obtain ⟨j, l⟩ := p
    simp only [sliceKeys, List.map_cons, List.nodup_cons] at h
    obtain ⟨hj, hrest⟩ := h
    by_cases hji : j = i
    · subst hji
      have heq : insertKV ((j, l) :: rest) j kv = (j, l ++ [kv]) :: rest := by
        simp [insertKV]
      rw [heq]
      simp only [sliceKeys, List.map_cons, List.nodup_cons]
      exact ⟨hj, hrest⟩
    · simp only [insertKV, if_neg hji, sliceKeys, List.map_cons,
        List.nodup_cons]
      refine ⟨?_, ih hrest⟩
      rw [show (insertKV rest i kv).map Prod.fst = sliceKeys (insertKV rest i kv)
        from rfl, sliceKeys_insertKV_mem]
      push_neg
      exact ⟨hji, hj⟩

theorem toDataSliceAux_isOk (set : List KeyValue) :
    ∀ m, (toDataSliceAux m set).isOk = true ↔
      ∀ kv ∈ set, (kv.path.head?.bind goAtoi).isSome = true := by
  induction set with
  | nil => intro m; simp [toDataSliceAux, Except.isOk, Except.toBool]
  | cons kv rest ih =>
    intro m
    cases hp : kv.path with
    | nil => simp [toDataSliceAux, hp, Except.isOk, Except.toBool]
    | cons f r =>
      cases ha : goAtoi f with
      | none => simp [toDataSliceAux, hp, ha, Except.isOk, Except.toBool]
      | some i => simp [toDataSliceAux, hp, ha, ih]

theorem toDataSliceAux_error (set : List KeyValue) :
    ∀ m e, toDataSliceAux m set = .error e →
      e = .sliceNoValue ∨ ∃ s, e = .sliceBadKey s := by
  induction set with
  | nil => intro m e h; simp [toDataSliceAux] at h
  | cons kv rest ih =>
    intro m e h
    cases hp : kv.path with
    | nil =>
      simp [toDataSliceAux, hp] at h
      exact Or.inl h.symm
    | cons f r =>
      cases ha : goAtoi f with
      | none =>
        simp [toDataSliceAux, hp, ha] at h
        exact Or.inr ⟨f, h.symm⟩
      | some i =>
        simp only [toDataSliceAux, hp, ha] at h
        exact ih _ _ h

theorem toDataSliceAux_find (set : List KeyValue) :
    ∀ m mr, toDataSliceAux m set = .ok mr → ∀ q,
      (sliceFind mr q).getD [] = (sliceFind m q).getD [] ++ childrenAt q set ∧
      (sliceFind mr q).isSome =
        ((sliceFind m q).isSome || !(childrenAt q set).isEmpty) := by
  induction set with
  | nil =>
    intro m mr h q
    simp [toDataSliceAux] at h
    subst h
    simp [childrenAt]
  | cons kv rest ih =>
    intro m mr h q
    cases hp : kv.path with
    | nil => simp [toDataSliceAux, hp] at h
    | cons f r =>
      cases ha : goAtoi f with
      | none => simp [toDataSliceAux, hp, ha] at h
      | some i =>
        simp only [toDataSliceAux, hp, ha] at h
        have hrec := ih (insertKV m i (kv.child f)) mr h q
        have hfind := sliceFind_insertKV m i (kv.child f) q
        have hchild : childrenAt q (kv :: rest) =
            (if i = q then [kv.child f] else []) ++ childrenAt q rest := by
          by_cases hiq : i = q <;>
            simp [childrenAt, List.filterMap_cons, hp, ha, hiq]
        by_cases hq : q = i
        · subst hq
          rw [hchild, if_pos rfl]
          rw [hfind] at hrec
          simp only [if_pos rfl, Option.getD_some, Option.isSome_some] at hrec
          constructor
          · rw [hrec.1]; simp [List.append_assoc]
          · rw [hrec.2]; simp
        · have hiq : ¬ i = q := fun hh => hq hh.symm
          rw [hchild, if_neg hiq]
          rw [hfind] at hrec
          simp only [if_neg hq] at hrec
          simpa using hrec

theorem toDataSliceAux_nodup (set : List KeyValue) :
    ∀ m mr, toDataSliceAux m set = .ok mr → (sliceKeys m).Nodup →
      (sliceKeys mr).Nodup := by
  induction set with
  | nil =>
    intro m mr h hm
    simp [toDataSliceAux] at h
    subst h
    exact hm
  | cons kv rest ih =>
    intro m mr h hm
    cases hp : kv.path with
    | nil => simp [toDataSliceAux, hp] at h
    | cons f r =>
      cases ha : goAtoi f with
      | none => simp [toDataSliceAux, hp, ha] at h
      | some i =>
        simp only [toDataSliceAux, hp, ha] at h
        exact ih _ _ h (sliceKeys_insertKV_nodup m i _ hm)

/-- C4 (amended): converting to a sequence fails (with one of the two
malformed-index errors) exactly when some entry has no remaining segment
or a next segment that strconv.Atoi rejects; Atoi accepts any optionally
signed base-10 integer fitting the 64-bit int range, so negative indices
are accepted.  On success the map sends each parsed index to its
truncated sub-entries. -/
theorem toDataSlice_spec (w : WalkerData) :
    ((w.ToDataSlice).isOk = true ↔
      ∀ kv ∈ w.set, (kv.path.head?.bind goAtoi).isSome = true) ∧
    (∀ e, w.ToDataSlice = .error e →
      e = .sliceNoValue ∨ ∃ s, e = .sliceBadKey s) ∧
    (∀ sl, w.ToDataSlice = .ok sl → ∀ i,
      (childrenAt i w.set = [] → sliceFind sl.set i = none) ∧
      (childrenAt i w.set ≠ [] →
        sliceFind sl.set i = some (childrenAt i w.set))) := by
  refine ⟨?_, ?_, ?_⟩
  · rw [← toDataSliceAux_isOk w.set []]
    unfold WalkerData.ToDataSlice
    cases h : toDataSliceAux [] w.set <;>
      simp [Except.map, Except.isOk, Except.toBool]
  · intro e h
    unfold WalkerData.ToDataSlice at h
    cases ha : toDataSliceAux [] w.set with
    | error e2 =>
      rw [ha] at h
      simp only [Except.map] at h
      have he : e2 = e := Except.error.inj h
      subst he
      exact toDataSliceAux_error w.set [] e2 ha
    | ok m =>
      rw [ha] at h
      simp [Except.map] at h
  · intro sl h i
    unfold WalkerData.ToDataSlice at h
    cases ha : toDataSliceAux [] w.set with
    | error e2 =>
      rw [ha] at h
      simp [Except.map] at h
    | ok m =>
      rw [ha] at h
      simp only [Except.map] at h
      have hsl : ({ set := m } : WalkerSlice) = sl := Except.ok.inj h
      subst hsl
      have hfind := toDataSliceAux_find w.set [] m ha i
      simp only [sliceFind, Option.getD_none, Option.isSome_none,
        Bool.false_or, List.nil_append] at hfind
      constructor
      · intro hc
        have hns : (sliceFind m i).isSome = false := by
          rw [hfind.2, hc]
          simp
        simpa using Option.not_isSome_iff_eq_none.mp (by simp [hns])
      · intro hc
        have hsome : (sliceFind m i).isSome = true := by
          rw [hfind.2]
          cases hl : childrenAt i w.set with
          | nil => exact absurd hl hc
          | cons x xs => simp
        obtain ⟨v, hv⟩ := Option.isSome_iff_exists.mp hsome
        rw [hv]
        rw [hv] at hfind
        simp only [Option.getD_some] at hfind
        rw [hfind.1]

/-- C7: for a successfully built sequence view, Len is the number of
distinct indices present (the key list is duplicate-free and contains
exactly the indices occurring among the entries), and Index returns the
sub-view at a present index and the no-such-index error at an absent
one. -/
theorem walkerSlice_spec (w : WalkerData) (sl : WalkerSlice)
    (h : w.ToDataSlice = .ok sl) :
    sl.Len = (sliceKeys sl.set).length ∧
    (sliceKeys sl.set).Nodup ∧
    (∀ i, i ∈ sliceKeys sl.set ↔ childrenAt i w.set ≠ []) ∧
    (∀ i, childrenAt i w.set ≠ [] →
      sl.Index i = .ok { set := childrenAt i w.set }) ∧
    (∀ i, childrenAt i w.set = [] → sl.Index i = .error (.noIndex i)) := by
  unfold WalkerData.ToDataSlice at h
  cases ha : toDataSliceAux [] w.set with
  | error e =>
    rw [ha] at h
    simp [Except.map] at h
  | ok m =>
    rw [ha] at h
    simp only [Except.map] at h
    have hsl : ({ set := m } : WalkerSlice) = sl := Except.ok.inj h
    subst hsl
    have hfind := fun i => toDataSliceAux_find w.set [] m ha i
    simp only [sliceFind, Option.getD_none, Option.isSome_none,
      Bool.false_or, List.nil_append] at hfind
    refine ⟨?_, ?_, ?_, ?_, ?_⟩
    · simp [WalkerSlice.Len, sliceKeys]
    · exact toDataSliceAux_nodup w.set [] m ha (by simp [sliceKeys])
    · intro i
      rw [← sliceFind_isSome_iff, (hfind i).2]
      cases hl : childrenAt i w.set <;> simp [hl]
    · intro i hc
      have hsome : (sliceFind m i).isSome = true := by
        rw [(hfind i).2]
        cases hl : childrenAt i w.set with
        | nil => exact absurd hl hc
        | cons x xs => simp
      obtain ⟨v, hv⟩ := Option.isSome_iff_exists.mp hsome
      have hval := (hfind i).1
      rw [hv, Option.getD_some] at hval
      simp [WalkerSlice.Index, hv, hval]
    · intro i hc
      have hns : (sliceFind m i).isSome = false := by
        rw [(hfind i).2, hc]
        simp
      have hnone : sliceFind m i = none :=
        Option.not_isSome_iff_eq_none.mp (by simp [hns])
      simp [WalkerSlice.Index, hnone]

theorem ggufKeysAux_mem (set : List KeyValue) :
    ∀ (acc : List String) (s : String),
      s ∈ set.foldl
        (fun ks kv => if firstKey kv ∈ ks then ks else ks ++ [firstKey kv])
        acc ↔
      s ∈ acc ∨ ∃ kv ∈ set, firstKey kv = s := by
  induction set with
  | nil => intro acc s; simp
  | cons kv rest ih =>
    intro acc s
    simp only [List.foldl_cons]
    by_cases h : firstKey kv ∈ acc
    · rw [if_pos h, ih]
      constructor
      · rintro (hs | hs)
        · exact Or.inl hs
        · exact Or.inr (by simpa using Or.inr hs)
      · rintro (hs | hs)
        · exact Or.inl hs
        · simp only [List.mem_cons] at hs
          obtain ⟨kv2, hkv2, hfk⟩ := hs
          rcases hkv2 with rfl | hkv2
          · exact Or.inl (hfk ▸ h)
          · exact Or.inr ⟨kv2, hkv2, hfk⟩
    · rw [if_neg h, ih]
      constructor
      · rintro (hs | hs)
        · rw [List.mem_append, List.mem_singleton] at hs
          rcases hs with hs | rfl
          · exact Or.inl hs
          · exact Or.inr ⟨kv, by simp, rfl⟩
        · exact Or.inr (by simpa using Or.inr hs)
      · rintro (hs | hs)
        · exact Or.inl (by simp [hs])
        · simp only [List.mem_cons] at hs
          obtain ⟨kv2, hkv2, hfk⟩ := hs
          rcases hkv2 with rfl | hkv2
          · exact Or.inl (by simp [hfk])
          · exact Or.inr ⟨kv2, hkv2, hfk⟩

theorem ggufKeysAux_nodup (set : List KeyValue) :
    ∀ acc : List String, acc.Nodup →
      (set.foldl
        (fun ks kv => if firstKey kv ∈ ks then ks else ks ++ [firstKey kv])
        acc).Nodup := by
  induction set with
  | nil => intro acc h; simpa using h
  | cons kv rest ih =>
    intro acc h
    simp only [List.foldl_cons]
    by_cases hm : firstKey kv ∈ acc
    · rw [if_pos hm]; exact ih acc h
    · rw [if_neg hm]
      refine ih _ ?_
      simp [List.nodup_append, h, hm]

/-- C6 (amended): a field lookup with no matching entry fails with the
no-such-field error whose message lists the distinct first-segment
values of the set, where an entry with no remaining segments contributes
the empty string; the listed values are exactly those present, without
duplicates. -/
theorem field_noMatch (w : WalkerStruct) (name : String)
    (h : selectChildren w.set name = []) :
    w.Field name = .error (.noField name (ggufKeys w.set)) ∧
    (ggufKeys w.set).Nodup ∧
    (∀ s, s ∈ ggufKeys w.set ↔ ∃ kv ∈ w.set, firstKey kv = s) := by
  refine ⟨?_, ?_, ?_⟩
  · simp [WalkerStruct.Field, h]
  · exact ggufKeysAux_nodup w.set [] List.nodup_nil
  · intro s
    unfold ggufKeys
    rw [ggufKeysAux_mem]
    simp

/-- C8: invariants of the reader gate along every reachable trace: at
most one stream is open at any instant, an unlocked gate has no open
stream, the number of successful opens equals the number of closes plus
the streams still open (each open is paired with at most one close and
each close with exactly one open), and a successful open can only step
from a state with no open stream (Lock blocks until the holder
releases). -/
theorem gate_mutual_exclusion (tr : List GateEvent) (s : GateState)
    (h : gateReach tr s) :
    s.openIds.length ≤ 1 ∧
    (s.locked = false → s.openIds = []) ∧
    tr.countP isAcquireOk = tr.countP isCloseEvent + s.openIds.length ∧
    (∀ id t, gateStep s (.acquireOk id) t → s.openIds = []) := by
  induction h with
  | init =>
    refine ⟨by simp, by simp, by simp, ?_⟩
    intro id t hstep
    rfl
  | step hr hs ih =>
    rename_i tr0 s0 e0 t0
    cases hs with
    | acquireOk id l =>
      have hl : l = [] := ih.2.1 rfl
      subst hl
      refine ⟨by simp, by simp, ?_, ?_⟩
      · have hcount := ih.2.2.1
        simp only [List.countP_append, List.countP_cons, List.countP_nil,
          isAcquireOk, isCloseEvent] at *
        simp at hcount ⊢
        omega
      · intro id2 t2 hstep
        cases hstep
    | acquireFail l =>
      refine ⟨ih.1, ih.2.1, ?_, ih.2.2.2⟩
      have hcount := ih.2.2.1
      simp [List.countP_append, List.countP_cons, isAcquireOk, isCloseEvent,
        hcount]
    | close id b l hmem =>
      have hlen : l.length ≤ 1 := ih.1
      have hl : l = [id] := by
        cases l with
        | nil => simp at hmem
        | cons x xs =>
          cases xs with
          | nil => simp at hmem; simp [hmem]
          | cons y ys => simp at hlen
      subst hl
      have herase : ([id] : List Nat).erase id = [] := by simp
      refine ⟨by simp [herase], by simp [herase], ?_, ?_⟩
      · have hcount := ih.2.2.1
        simp only [List.countP_append, List.countP_cons, List.countP_nil,
          isAcquireOk, isCloseEvent, herase] at *
        simp at hcount ⊢
        omega
      · intro id2 t2 hstep
        simp [herase]

/-- C9: one run of arrayFuture.Value, whatever its outcome (failed open,
short read, size mismatch, index panic, or success), leaves the gate
unlocked with the same open handles as before, and its event sequence is
a legal gate trace from the idle gate back to it: the lock is released
on every exit path. -/
theorem tensorValue_releases_gate (t : TensorModel) (id : Nat)
    (g : GateState) :
    (tensorValue t id g).2.locked = false ∧
    (tensorValue t id g).2.openIds = g.openIds ∧
    gateReach (valueGateEvents t id) gateInit := by
  cases hs : t.stream with
  | none =>
    refine ⟨by simp [tensorValue, hs], by simp [tensorValue, hs], ?_⟩
    have hstep : gateReach ([] ++ [GateEvent.acquireFail]) gateInit :=
      gateReach.step gateReach.init (gateStep.acquireFail [])
    simpa [valueGateEvents, hs] using hstep
  | some bs =>
    have herase : (id :: g.openIds).erase id = g.openIds :=
      List.erase_cons_head id g.openIds
    refine ⟨?_, ?_, ?_⟩
    · simp only [tensorValue, hs]
      split
      · rfl
      · split
        · rfl
        · split <;> rfl
    · simp only [tensorValue, hs]
      split
      · exact herase
      · split
        · exact herase
        · split <;> exact herase
    · have h1 : gateReach ([] ++ [GateEvent.acquireOk id])
          { locked := true, openIds := [id] } :=
        gateReach.step gateReach.init (gateStep.acquireOk id [])
      have h2 := gateReach.step h1
        (gateStep.close id true [id] (by simp))
      have herase2 : ([id] : List Nat).erase id = [] := by simp
      simpa [valueGateEvents, hs, herase2, gateInit] using h2

/-- Witness for tensorValue_ok_shape at tensor24. -/
theorem tensorValue_ok_shape_witness :
    (tensorValue tensor24 0 gateInit).1 = .ok array24 ∧
    array24.axes = [2, 3] ∧ array24.elems.length = 6 ∧
    array24.elems[1]? = some [4, 5, 6, 7] := by
  have hok : (tensorValue tensor24 0 gateInit).1 = .ok array24 := by decide
  have hs := tensorValue_ok_shape tensor24 0 gateInit array24 hok
  exact ⟨hok, hs.1, hs.2.1, hs.2.2 (List.range 24) rfl 1 (by decide)⟩

/-- C2 counterexample: a 25-byte record with 6 declared elements passes
the size check (25 / 4 = 6 under truncating division) and materializes,
although 25 is not exactly 4 times the element count, so the validation
is not byte-exact. -/
theorem tensorValue_byteExact_cx :
    (tensorValue tensor25 0 gateInit).1.isOk = true ∧
    tensor25.size ≠ 4 * tensor25.dims.prod := by decide

/-- Witness for tensorValue_size_check at tensor20: the size mismatch is
reported with axes [2,3], element count 6, byte size 20, width 4. -/
theorem tensorValue_size_check_witness :
    (tensorValue tensor20 0 gateInit).1 =
      .error (.sizeMismatch [2, 3] 6 20 4) :=
  (tensorValue_size_check tensor20 0 gateInit).2
    (List.replicate 20 0) rfl (by decide) (by decide)

/-- C3 counterexample: a view whose single entry still has a remaining
segment nevertheless materializes: the zero-remaining-segments condition
is not checked. -/
theorem valueFuture_cx :
    WalkerData.ValueFuture { set := [kvX] } = .ok { kv := kvX } ∧
    kvX.path ≠ [] := by decide

/-- Witness for valueFuture_cardinality on empty, two-entry and
singleton views. -/
theorem valueFuture_cardinality_witness :
    WalkerData.ValueFuture { set := [] } = .error .emptyLeaf ∧
    WalkerData.ValueFuture { set := [kvY, kvY] } = .error .notALeaf ∧
    WalkerData.ValueFuture { set := [kvY] } = .ok { kv := kvY } :=
  ⟨(valueFuture_cardinality { set := [] }).1 rfl,
    (valueFuture_cardinality { set := [kvY, kvY] }).2.1 kvY kvY [] rfl,
    (valueFuture_cardinality { set := [kvY] }).2.2 kvY rfl⟩

/-- C4 counterexample: the segment -1 is not a non-negative base-10
integer, yet converting the view to a sequence succeeds, because
strconv.Atoi accepts signed integers. -/
theorem toDataSlice_cx :
    isNonNegIntString "-1" = false ∧
    (WalkerData.ToDataSlice { set := [kvNeg] }).isOk = true := by decide

/-- Witness for toDataSlice_spec at a well-formed two-entry view. -/
theorem toDataSlice_spec_witness :
    (WalkerData.ToDataSlice w4).isOk = true :=
  (toDataSlice_spec w4).1.mpr (by decide)

/-- Witness for walkerSlice_spec at w7: distinct-index count 2, lookup
at the absent index 5 fails with the no-such-index error. -/
theorem walkerSlice_spec_witness :
    WalkerSlice.Len sl7 = 2 ∧
    WalkerSlice.Index sl7 5 = .error (.noIndex 5) := by
  have h : WalkerData.ToDataSlice w7 = .ok sl7 := by decide
  have hs := walkerSlice_spec w7 sl7 h
  exact ⟨hs.1, hs.2.2.2.2 5 (by decide)⟩

/-- C6 counterexample: a failed lookup over a set whose only entry has no
remaining segments reports the empty string among the available keys,
although no entry has an actual next segment. -/
theorem field_keys_cx :
    WalkerStruct.Field { set := [kvNil] } "x" =
      .error (.noField "x" [""]) ∧
    kvNil.path = [] := by decide

/-- Witness for field_noMatch: the failure lists exactly the distinct
first segments a and c. -/
theorem field_noMatch_witness :
    WalkerStruct.Field { set := [kvAB, kvC] } "z" =
      .error (.noField "z" ["a", "c"]) ∧
    (["a", "c"] : List String).Nodup := by
  have h := field_noMatch { set := [kvAB, kvC] } "z" (by decide)
  exact ⟨h.1, h.2.1⟩

/-- Witness for gate_mutual_exclusion on the trace open-then-close. -/
theorem gate_mutual_exclusion_witness :
    ({ locked := false, openIds := List.erase [0] 0 } :
      GateState).openIds.length ≤ 1 ∧
    [GateEvent.acquireOk 0, GateEvent.close 0].countP isAcquireOk =
      [GateEvent.acquireOk 0, GateEvent.close 0].countP isCloseEvent +
        (List.erase [0] 0).length := by
  have h1 : gateReach [GateEvent.acquireOk 0]
      { locked := true, openIds := [0] } :=
    gateReach.step gateReach.init (gateStep.acquireOk 0 [])
  have h2 : gateReach [GateEvent.acquireOk 0, GateEvent.close 0]
      { locked := false, openIds := List.erase [0] 0 } :=
    gateReach.step h1 (gateStep.close 0 true [0] (by simp))
  have h := gate_mutual_exclusion _ _ h2
  exact ⟨h.1, h.2.2.1⟩
